import Mathlib

/-!
Verification of the tg-analyzer message data model and normalization layer
(`src/main.py`) against its specification.

The embedding is shallow: Python dicts that back `JsonObject` become
association lists from string keys to a `JVal` universe of the values that
actually occur in an export record; the `Text` dataclass becomes a structure
holding the segment list; exceptions (`KeyError`, `AttributeError`,
`ValueError`) become an `Except` error type.  Python `str.lower` is modelled
ASCII-wise (a character-by-character map), and Python `str.count` by the
standard greedy left-to-right non-overlapping scan, which for an empty
needle yields `length + 1`, as in CPython.
-/

namespace TgAnalyzer

/-- One element of a raw `text` list: a plain string, or an entity object.
An entity dict in the export carries a `type` key and optionally a `text`
key; only those two keys are ever read by the code, so an entity is
modelled as its type tag together with its optional inline text. -/
inductive Segment where
  | str (s : String)
  | entity (ty : String) (txt : Option String)
deriving DecidableEq, Repr

/-- The normalized text body: `Message.Text` from the source, a dataclass
whose `contents` field is the segment list. -/
structure Text where
  contents : List Segment
deriving DecidableEq, Repr

/-- The universe of values stored in a record: strings, integers, a raw
text value (string or segment list), or a normalized `Text` after
`Message.__post_init__` has run. -/
inductive JVal where
  | str (s : String)
  | num (n : Int)
  | list (l : List Segment)
  | content (t : Text)
deriving DecidableEq, Repr

/-- A raw export record: the Python dict, as an ordered association list. -/
abbrev Record := List (String × JVal)

/-- Dict lookup `d[key]`: `none` models a `KeyError`. -/
def Record.get : Record → String → Option JVal
  | [], _ => none
  | (k, v) :: rest, key => if k = key then some v else Record.get rest key

/-- Dict assignment `d[key] = val`: replaces the value at the first
occurrence of the key, or appends when the key is absent (Python dicts
keep insertion order). -/
def Record.set : Record → String → JVal → Record
  | [], key, val => [(key, val)]
  | (k, v) :: rest, key, val =>
    if k = key then (key, val) :: rest else (k, v) :: Record.set rest key val

/-- ASCII lower-casing of one character, modelling Python `str.lower`
character-wise: `A`..`Z` (codes 65..90) map 32 code points up. -/
def pyLowerChar (c : Char) : Char :=
  if 65 ≤ c.toNat ∧ c.toNat ≤ 90 then Char.ofNat (c.toNat + 32) else c

/-- Lower-casing of a string, character by character. -/
def pyLower (s : String) : String :=
  ⟨s.data.map pyLowerChar⟩

/-- Scan for the greedy left-to-right count: at each position with no
pending skip, a match of `w` counts one occurrence and skips the rest of
the matched span, so each match consumes the span before scanning on. -/
def pyCountGo (w : List Char) : List Char → Nat → Nat
  | [], _ => 0
  | c :: rest, skip =>
    match skip with
    | k + 1 => pyCountGo w rest k
    | 0 =>
      if w.isPrefixOf (c :: rest) then 1 + pyCountGo w rest (w.length - 1)
      else pyCountGo w rest 0

/-- Python `str.count` on character lists: greedy non-overlapping
left-to-right scan; an empty needle counts `length + 1` occurrences, as
CPython does. -/
def pyCountList (s w : List Char) : Nat :=
  match w with
  | [] => s.length + 1
  | _ :: _ => pyCountGo w s 0

/-- Python `s.count(word)` on strings. -/
def pyCount (s word : String) : Nat :=
  pyCountList s.data word.data

/-- `Text.__post_init__`: a raw string becomes a one-element segment list,
a raw list is stored as-is.  Other value shapes are not a string and not a
segment list and are out of scope (`none`). -/
def Text.ofRaw : JVal → Option Text
  | .str s => some ⟨[.str s]⟩
  | .list l => some ⟨l⟩
  | _ => none

/-- The text a segment contributes to searching, per the loop head of
`Text.count`: a plain string is used directly; an entity is searched via
its `text` entry, and skipped (`none`) when that entry is absent. -/
def Segment.searchText : Segment → Option String
  | .str s => some s
  | .entity _ txt => txt

/-- One iteration body of `Text.count` folded over the segments: the
`counts` list built by the loop.  The `word` argument is threaded through
because the source reassigns `word = word.lower()` inside the loop. -/
def countAux (cs : Bool) : List Segment → String → List Nat
  | [], _ => []
  | seg :: rest, word =>
    match Segment.searchText seg with
    | none => countAux cs rest word
    | some s =>
      if cs then
        pyCount s word :: countAux cs rest word
      else
        pyCount (pyLower s) (pyLower word) :: countAux cs rest (pyLower word)

/-- `Text.count(word, case_sensitive)`: sum of the per-segment counts. -/
def Text.count (t : Text) (word : String) (case_sensitive : Bool) : Nat :=
  (countAux case_sensitive t.contents word).sum

/-- One element of the `res` list built by `Text.__repr__`: a plain string
renders as itself; an entity renders as its `text` entry when present,
otherwise as the angle-bracketed placeholder around its type tag. -/
def Segment.render : Segment → String
  | .str s => s
  | .entity ty txt =>
    match txt with
    | some x => x
    | none => "<" ++ ty ++ ">"

/-- `Text.__repr__`: join the rendered segments in order. -/
def Text.render (t : Text) : String :=
  String.join (t.contents.map Segment.render)

/-- The exceptions the modelled code can raise: the `ValueError` from
`MsgFactory.get_message` (carrying the offending `type` value), dict
`KeyError`, attribute access failure, and the out-of-scope shape of a raw
text value (a value that is neither a string nor a list; CPython would
accept it at construction and fail at first query, which no claim
reaches). -/
inductive PyError where
  | unhandledMessageType (v : JVal)
  | keyError (key : String)
  | attributeError (attr : String)
  | typeError (key : String)
deriving DecidableEq, Repr

/-- The two Message subclasses. -/
inductive Variant where
  | regular
  | service
deriving DecidableEq, Repr

/-- A constructed message: its class (variant) and the record it wraps,
after `Message.__post_init__` has replaced the `text` field. -/
structure Message where
  variant : Variant
  inner : Record
deriving DecidableEq, Repr

/-- `Message.__post_init__`: read the raw `text` field, normalize it into
a `Text`, and write it back in place. -/
def Message.postInit (rec : Record) : Except PyError Record :=
  match Record.get rec "text" with
  | none => .error (.keyError "text")
  | some v =>
    match Text.ofRaw v with
    | some t => .ok (Record.set rec "text" (.content t))
    | none => .error (.typeError "text")

/-- Field access through `JsonObject.get` on a constructed message. -/
def Message.getField (m : Message) (key : String) : Except PyError JVal :=
  match Record.get m.inner key with
  | some v => .ok v
  | none => .error (.keyError key)

/-- `RegularMessage.from_usr`: defined only on the Regular subclass;
on a Service message the attribute does not exist. -/
def Message.from_usr (m : Message) : Except PyError JVal :=
  match m.variant with
  | .regular => m.getField "from"
  | .service => .error (.attributeError "from_usr")

/-- `ServiceMessage.action`: defined only on the Service subclass;
on a Regular message the attribute does not exist. -/
def Message.action (m : Message) : Except PyError JVal :=
  match m.variant with
  | .service => m.getField "action"
  | .regular => .error (.attributeError "action")

/-- `MsgFactory.get_message`: dispatch on the `type` field through the
fixed `MAPPING`; an unknown type raises the `ValueError` carrying the
offending value. -/
def MsgFactory.get_message (rec : Record) : Except PyError Message :=
  match Record.get rec "type" with
  | none => .error (.keyError "type")
  | some v =>
    if v = .str "service" then
      (Message.postInit rec).map (fun r => ⟨.service, r⟩)
    else if v = .str "message" then
      (Message.postInit rec).map (fun r => ⟨.regular, r⟩)
    else
      .error (.unhandledMessageType v)

/-- A parsed export document: `name`, `id`, and the raw record list. -/
structure RawDoc where
  name : String
  id : Int
  messages : List Record
deriving DecidableEq, Repr

/-- The loaded model: `ChatExport` after construction. -/
structure ChatExport where
  name : String
  id : Int
  messages : List Message
deriving DecidableEq, Repr

/-- The loop of `ChatExport.__post_init__`: convert each raw record
through the factory, left to right; the first raised error aborts the
whole construction. -/
def loadMessages : List Record → Except PyError (List Message)
  | [] => .ok []
  | r :: rest =>
    match MsgFactory.get_message r with
    | .error e => .error e
    | .ok m =>
      match loadMessages rest with
      | .error e => .error e
      | .ok ms => .ok (m :: ms)

/-- `load`: construct the `ChatExport` from a parsed document, or fail. -/
def ChatExport.load (doc : RawDoc) : Except PyError ChatExport :=
  (loadMessages doc.messages).map (fun ms => ⟨doc.name, doc.id, ms⟩)

/-- Spec-side per-segment count, following the wording of section 4.2: a
plain string is searched directly; a typed entity is searched via its
`text` sub-field when present and contributes zero occurrences when it is
absent; with `case_sensitive` false both the segment text and the word
are lower-cased before counting. -/
def specSegCount (word : String) (cs : Bool) : Segment → Nat
  | .str s => if cs then pyCount s word else pyCount (pyLower s) (pyLower word)
  | .entity _ (some s) =>
    if cs then pyCount s word else pyCount (pyLower s) (pyLower word)
  | .entity _ none => 0

/-- Spec-side per-segment rendering, following the wording of section 3:
a plain-string segment renders as itself; a typed-entity segment renders
as its `text` sub-field if present, otherwise as the bracketed
placeholder around its type tag. -/
def specRenderSeg : Segment → String
  | .str s => s
  | .entity _ (some txt) => txt
  | .entity ty none => "<" ++ ty ++ ">"

/-- Spec-side contribution of one segment to a count of the empty word:
length plus one for a plain string or an entity with inline text, zero
for an entity without one. -/
def emptyWordContrib : Segment → Nat
  | .str s => s.length + 1
  | .entity _ (some s) => s.length + 1
  | .entity _ none => 0

/-- Well-formedness of a raw record, matching the input shape of
section 6: the `type` field is one of the two recognized tags and the
`text` field is present and is a string or a list. -/
def recWellFormed (rec : Record) : Bool :=
  (Record.get rec "type" == some (JVal.str "message") ||
    Record.get rec "type" == some (JVal.str "service")) &&
  (match Record.get rec "text" with
   | some v => (Text.ofRaw v).isSome
   | none => false)

lemma pyLowerChar_idem (c : Char) : pyLowerChar (pyLowerChar c) = pyLowerChar c := by
  unfold pyLowerChar
  by_cases h : 65 ≤ c.toNat ∧ c.toNat ≤ 90
  · rw [if_pos h]
    have ht : (Char.ofNat (c.toNat + 32)).toNat = c.toNat + 32 := by
      have hv : (c.toNat + 32).isValidChar := Or.inl (by omega)
      unfold Char.ofNat
      rw [dif_pos hv]
      rfl
    rw [ht, if_neg (by omega)]
  · rw [if_neg h, if_neg h]

lemma pyLower_idem (s : String) : pyLower (pyLower s) = pyLower s := by
  show String.mk ((s.data.map pyLowerChar).map pyLowerChar) = String.mk (s.data.map pyLowerChar)
  rw [List.map_map]
  exact congrArg String.mk (List.map_congr_left fun c _ => pyLowerChar_idem c)

lemma pyLower_length (s : String) : (pyLower s).length = s.length := by
  show (s.data.map pyLowerChar).length = s.data.length
  exact List.length_map s.data pyLowerChar

lemma pyCount_empty_word (s : String) : pyCount s "" = s.length + 1 := rfl

lemma specSegCount_pyLower (word : String) (seg : Segment) :
    specSegCount (pyLower word) false seg = specSegCount word false seg := by
  cases seg with
  | str s => simp [specSegCount, pyLower_idem]
  | entity ty txt => cases txt <;> simp [specSegCount, pyLower_idem]

lemma countAux_sum (cs : Bool) (segs : List Segment) (word : String) :
    (countAux cs segs word).sum = (segs.map (specSegCount word cs)).sum := by
  induction segs generalizing word with
  | nil => rfl
  | cons seg rest ih =>
    have hmap : ∀ w, (rest.map (specSegCount (pyLower w) false)).sum =
        (rest.map (specSegCount w false)).sum := by
      intro w
      rw [List.map_congr_left fun seg _ => specSegCount_pyLower w seg]
    cases seg with
    | str s =>
      cases cs with
      | true => simp [countAux, Segment.searchText, specSegCount, ih]
      | false =>
        simp [countAux, Segment.searchText, specSegCount]
        rw [ih (pyLower word), hmap word]
    | entity ty txt =>
      cases txt with
      | none => simp [countAux, Segment.searchText, specSegCount, ih]
      | some s =>
        cases cs with
        | true => simp [countAux, Segment.searchText, specSegCount, ih]
        | false =>
          simp [countAux, Segment.searchText, specSegCount]
          rw [ih (pyLower word), hmap word]

lemma segment_render_eq_spec (seg : Segment) : Segment.render seg = specRenderSeg seg := by
  cases seg with
  | str s => rfl
  | entity ty txt => cases txt <;> rfl

lemma foldl_append_eq (l : List String) (a : String) :
    l.foldl (fun r s => r ++ s) a = a ++ l.foldr (· ++ ·) "" := by
  induction l generalizing a with
  | nil => simp
  | cons b rest ih => simp [List.foldl_cons, List.foldr_cons, ih, String.append_assoc]

lemma join_eq_foldr (l : List String) : String.join l = l.foldr (· ++ ·) "" := by
  show l.foldl (fun r s => r ++ s) "" = l.foldr (· ++ ·) ""
  rw [foldl_append_eq]
  exact String.empty_append _

lemma Record.get_set_self (r : Record) (key : String) (v : JVal) :
    Record.get (Record.set r key v) key = some v := by
  induction r with
  | nil => simp [Record.set, Record.get]
  | cons p rest ih =>
    by_cases h : p.1 = key
    · simp [Record.set, h, Record.get]
    · simp [Record.set, h, Record.get, ih]

lemma Record.get_set_ne (r : Record) (key other : String) (v : JVal)
    (hne : other ≠ key) :
    Record.get (Record.set r key v) other = Record.get r other := by
  have hko : key ≠ other := Ne.symm hne
  induction r with
  | nil => simp [Record.set, Record.get, hko]
  | cons p rest ih =>
    by_cases h : p.1 = key
    · simp [Record.set, h, Record.get, hko]
    · simp [Record.set, h, Record.get, ih]

lemma pyLower_empty : pyLower "" = "" := by decide

lemma specSegCount_empty_word (cs : Bool) (seg : Segment) :
    specSegCount "" cs seg = emptyWordContrib seg := by
  cases seg with
  | str s =>
    cases cs <;>
      simp [specSegCount, emptyWordContrib, pyCount_empty_word, pyLower_length, pyLower_empty]
  | entity ty txt =>
    cases txt with
    | none => cases cs <;> rfl
    | some s =>
      cases cs <;>
        simp [specSegCount, emptyWordContrib, pyCount_empty_word, pyLower_length, pyLower_empty]

lemma postInit_ok {rec : Record} {v : JVal} {t : Text}
    (htext : Record.get rec "text" = some v) (ht : Text.ofRaw v = some t) :
    Message.postInit rec = .ok (Record.set rec "text" (JVal.content t)) := by
  simp [Message.postInit, htext, ht]

lemma get_message_unhandled {rec : Record} {ty : String}
    (htype : Record.get rec "type" = some (JVal.str ty))
    (hm : ty ≠ "message") (hs : ty ≠ "service") :
    MsgFactory.get_message rec = .error (.unhandledMessageType (JVal.str ty)) := by
  simp [MsgFactory.get_message, htype, hm, hs]

lemma loadMessages_ok_length {l : List Record} {ms : List Message}
    (h : loadMessages l = .ok ms) : ms.length = l.length := by
  induction l generalizing ms with
  | nil =>
    simp only [loadMessages, Except.ok.injEq] at h
    subst h
    rfl
  | cons r rest ih =>
    cases hg : MsgFactory.get_message r with
    | error e => simp [loadMessages, hg] at h
    | ok m =>
      cases hrest : loadMessages rest with
      | error e => simp [loadMessages, hg, hrest] at h
      | ok ms2 =>
        simp only [loadMessages, hg, hrest, Except.ok.injEq] at h
        subst h
        simp [ih hrest]

lemma loadMessages_ok_get {l : List Record} {ms : List Message}
    (h : loadMessages l = .ok ms) :
    ∀ i (h1 : i < l.length) (h2 : i < ms.length),
      MsgFactory.get_message (l.get ⟨i, h1⟩) = .ok (ms.get ⟨i, h2⟩) := by
  induction l generalizing ms with
  | nil => intro i h1 h2; exact absurd h1 (by simp)
  | cons r rest ih =>
    cases hg : MsgFactory.get_message r with
    | error e => simp [loadMessages, hg] at h
    | ok m =>
      cases hrest : loadMessages rest with
      | error e => simp [loadMessages, hg, hrest] at h
      | ok ms2 =>
        simp only [loadMessages, hg, hrest, Except.ok.injEq] at h
        subst h
        intro i h1 h2
        cases i with
        | zero => exact hg
        | succ j =>
          exact ih hrest j (Nat.lt_of_succ_lt_succ h1) (Nat.lt_of_succ_lt_succ h2)

lemma loadMessages_ok_mem {l : List Record} {ms : List Message}
    (h : loadMessages l = .ok ms) :
    ∀ r ∈ l, ∃ m, MsgFactory.get_message r = .ok m := by
  induction l generalizing ms with
  | nil => intro r hr; exact absurd hr (by simp)
  | cons r0 rest ih =>
    cases hg : MsgFactory.get_message r0 with
    | error e => simp [loadMessages, hg] at h
    | ok m =>
      cases hrest : loadMessages rest with
      | error e => simp [loadMessages, hg, hrest] at h
      | ok ms2 =>
        intro r hr
        rcases List.mem_cons.mp hr with rfl | hmem
        · exact ⟨m, hg⟩
        · exact ih hrest r hmem

lemma loadMessages_total {l : List Record}
    (h : ∀ r ∈ l, ∃ m, MsgFactory.get_message r = .ok m) :
    ∃ ms, loadMessages l = .ok ms := by
  induction l with
  | nil => exact ⟨[], rfl⟩
  | cons r rest ih =>
    obtain ⟨m, hm⟩ := h r (List.mem_cons_self r rest)
    obtain ⟨ms, hms⟩ := ih fun r2 hr2 => h r2 (List.mem_cons_of_mem _ hr2)
    exact ⟨m :: ms, by simp [loadMessages, hm, hms]⟩

lemma load_not_ok {doc : RawDoc} {rec : Record}
    (hmem : rec ∈ doc.messages)
    (hbad : ∀ m, MsgFactory.get_message rec ≠ .ok m) :
    ∀ ce, ChatExport.load doc ≠ .ok ce := by
  intro ce hok
  unfold ChatExport.load at hok
  cases hl : loadMessages doc.messages with
  | error e => rw [hl] at hok; exact absurd hok (by simp [Except.map])
  | ok ms =>
    obtain ⟨m, hm2⟩ := loadMessages_ok_mem hl rec hmem
    exact hbad m hm2

lemma load_fails {doc : RawDoc} {rec : Record}
    (hmem : rec ∈ doc.messages)
    (hbad : ∀ m, MsgFactory.get_message rec ≠ .ok m) :
    ∃ e, ChatExport.load doc = .error e := by
  cases hl : loadMessages doc.messages with
  | error e => exact ⟨e, by simp [ChatExport.load, hl, Except.map]⟩
  | ok ms =>
    obtain ⟨m, hm2⟩ := loadMessages_ok_mem hl rec hmem
    exact absurd hm2 (hbad m)

/-- C1: for every TextContent and non-empty word, `count` returns the sum
over segments of the non-overlapping left-to-right occurrence counts,
where a plain string is searched directly, an entity is searched via its
`text` sub-field and contributes zero when it is absent, and with
`case_sensitive` false both segment text and word are lower-cased. -/
theorem count_spec (t : Text) (word : String) (cs : Bool) (_hw : word ≠ "") :
    Text.count t word cs = (t.contents.map (specSegCount word cs)).sum :=
  countAux_sum cs t.contents word

theorem count_spec_witness :
    ("link" : String) ≠ "" ∧
    Text.count ⟨[Segment.str "see ", Segment.entity "link" none, Segment.str " link"]⟩
        "link" false =
      ([Segment.str "see ", Segment.entity "link" none, Segment.str " link"].map
        (specSegCount "link" false)).sum :=
  ⟨by decide,
   count_spec ⟨[Segment.str "see ", Segment.entity "link" none, Segment.str " link"]⟩
     "link" false (by decide)⟩

/-- C2: `render` returns the concatenation, in segment order, of each
plain-string segment as itself and each entity segment as its `text`
sub-field when present, otherwise as the placeholder made of the type tag
between angle brackets; a TextContent built from a plain string renders
as exactly that string. -/
theorem render_spec (raw : JVal) (t : Text) (h : Text.ofRaw raw = some t) :
    Text.render t = (t.contents.map specRenderSeg).foldr (· ++ ·) "" ∧
    ∀ s, raw = JVal.str s → Text.render t = s := by
  constructor
  · rw [Text.render, join_eq_foldr,
      List.map_congr_left fun seg _ => segment_render_eq_spec seg]
  · intro s hs
    subst hs
    simp only [Text.ofRaw, Option.some.injEq] at h
    subst h
    simp [Text.render, Segment.render, join_eq_foldr]

theorem render_spec_witness :
    Text.render ⟨[Segment.str "hello"]⟩ =
      ([Segment.str "hello"].map specRenderSeg).foldr (· ++ ·) "" ∧
    Text.render ⟨[Segment.str "hello"]⟩ = "hello" :=
  ⟨(render_spec (JVal.str "hello") ⟨[Segment.str "hello"]⟩ rfl).1,
   (render_spec (JVal.str "hello") ⟨[Segment.str "hello"]⟩ rfl).2 "hello" rfl⟩

/-- C3: the constructed TextContent holds a singleton with exactly the
raw string when the raw value is a string, and exactly the raw list,
element for element in order, when it is a sequence. -/
theorem ofRaw_preserves (raw : JVal) (t : Text) (h : Text.ofRaw raw = some t) :
    (∀ s, raw = JVal.str s → t.contents = [Segment.str s]) ∧
    (∀ l, raw = JVal.list l → t.contents = l) := by
  constructor
  · intro s hs
    subst hs
    simp only [Text.ofRaw, Option.some.injEq] at h
    subst h
    rfl
  · intro l hl
    subst hl
    simp only [Text.ofRaw, Option.some.injEq] at h
    subst h
    rfl

theorem ofRaw_preserves_witness :
    (⟨[Segment.entity "mention" none]⟩ : Text).contents = [Segment.entity "mention" none] :=
  (ofRaw_preserves (JVal.list [Segment.entity "mention" none])
    ⟨[Segment.entity "mention" none]⟩ rfl).2 [Segment.entity "mention" none] rfl

/-- C4: for a well-formed record the factory returns the Regular variant
when `type` is "message", exposing `from_usr` as the record's `from`
field, and the Service variant when `type` is "service", exposing
`action` as the record's `action` field; the normalized TextContent is
built from the record's `text` field in both cases. -/
theorem get_message_variants (rec : Record) (v : JVal) (t : Text)
    (htext : Record.get rec "text" = some v) (ht : Text.ofRaw v = some t) :
    (Record.get rec "type" = some (JVal.str "message") →
      ∃ m, MsgFactory.get_message rec = .ok m ∧ m.variant = .regular ∧
        Message.getField m "text" = .ok (JVal.content t) ∧
        ∀ f, Record.get rec "from" = some f → Message.from_usr m = .ok f) ∧
    (Record.get rec "type" = some (JVal.str "service") →
      ∃ m, MsgFactory.get_message rec = .ok m ∧ m.variant = .service ∧
        Message.getField m "text" = .ok (JVal.content t) ∧
        ∀ a, Record.get rec "action" = some a → Message.action m = .ok a) := by
  have hpost := postInit_ok htext ht
  constructor
  · intro hty
    refine ⟨⟨.regular, Record.set rec "text" (JVal.content t)⟩, ?_, rfl, ?_, ?_⟩
    · simp [MsgFactory.get_message, hty, hpost, Except.map]
    · simp [Message.getField, Record.get_set_self]
    · intro f hf
      have hfrom : Record.get (Record.set rec "text" (JVal.content t)) "from" = some f := by
        rw [Record.get_set_ne rec "text" "from" (JVal.content t) (by decide)]
        exact hf
      simp [Message.from_usr, Message.getField, hfrom]
  · intro hty
    refine ⟨⟨.service, Record.set rec "text" (JVal.content t)⟩, ?_, rfl, ?_, ?_⟩
    · simp [MsgFactory.get_message, hty, hpost, Except.map]
    · simp [Message.getField, Record.get_set_self]
    · intro a ha
      have hact : Record.get (Record.set rec "text" (JVal.content t)) "action" = some a := by
        rw [Record.get_set_ne rec "text" "action" (JVal.content t) (by decide)]
        exact ha
      simp [Message.action, Message.getField, hact]

theorem get_message_variants_witness :
    ∃ m, MsgFactory.get_message
        [("type", JVal.str "message"), ("text", JVal.str "hi"), ("from", JVal.str "A")] =
      .ok m ∧ m.variant = .regular ∧
      Message.getField m "text" = .ok (JVal.content ⟨[Segment.str "hi"]⟩) ∧
      ∀ f, Record.get
          [("type", JVal.str "message"), ("text", JVal.str "hi"), ("from", JVal.str "A")]
          "from" = some f →
        Message.from_usr m = .ok f :=
  (get_message_variants _ (JVal.str "hi") ⟨[Segment.str "hi"]⟩ (by decide) rfl).1 (by decide)

/-- C5: a record whose `type` is neither "message" nor "service" makes
the factory fail with the unhandled-message-type error carrying the
offending type string, and the error propagates so that loading any
document containing that record cannot succeed. -/
theorem unhandled_type_error (rec : Record) (ty : String)
    (htype : Record.get rec "type" = some (JVal.str ty))
    (hm : ty ≠ "message") (hs : ty ≠ "service") :
    MsgFactory.get_message rec = .error (.unhandledMessageType (JVal.str ty)) ∧
    ∀ doc : RawDoc, rec ∈ doc.messages → ∀ ce, ChatExport.load doc ≠ .ok ce := by
  have hge := get_message_unhandled htype hm hs
  refine ⟨hge, ?_⟩
  intro doc hmem ce
  exact load_not_ok hmem (fun m hm2 => by rw [hge] at hm2; exact Except.noConfusion hm2) ce

theorem unhandled_type_error_witness :
    MsgFactory.get_message [("type", JVal.str "poll")] =
      .error (.unhandledMessageType (JVal.str "poll")) ∧
    ∀ doc : RawDoc, [("type", JVal.str "poll")] ∈ doc.messages →
      ∀ ce, ChatExport.load doc ≠ .ok ce :=
  unhandled_type_error _ "poll" (by decide) (by decide) (by decide)

/-- C6: load is atomic: a document containing a record with an
unrecognized `type` makes the whole construction fail with an error, and
no ChatExport value is ever produced for it. -/
theorem load_atomic (doc : RawDoc)
    (h : ∃ rec ∈ doc.messages, ∃ ty,
      Record.get rec "type" = some (JVal.str ty) ∧ ty ≠ "message" ∧ ty ≠ "service") :
    (∃ e, ChatExport.load doc = .error e) ∧
    ∀ ce, ChatExport.load doc ≠ .ok ce := by
  obtain ⟨rec, hmem, ty, htype, hm, hs⟩ := h
  have hge := get_message_unhandled htype hm hs
  have hbad : ∀ m, MsgFactory.get_message rec ≠ Except.ok m := by
    intro m hm2
    rw [hge] at hm2
    exact Except.noConfusion hm2
  exact ⟨load_fails hmem hbad, load_not_ok hmem hbad⟩

theorem load_atomic_witness :
    (∃ e, ChatExport.load ⟨"c", 1, [[("type", JVal.str "poll")]]⟩ = .error e) ∧
    ∀ ce, ChatExport.load ⟨"c", 1, [[("type", JVal.str "poll")]]⟩ ≠ .ok ce :=
  load_atomic _ ⟨[("type", JVal.str "poll")], by simp, "poll", by decide, by decide, by decide⟩

/-- C7: for a document whose records all have a recognized type (and the
well-formed text field the input shape guarantees), construction succeeds
and the resulting messages list has exactly one Message per raw record,
in the same order. -/
theorem load_preserves_order (doc : RawDoc)
    (h : ∀ rec ∈ doc.messages,
      (Record.get rec "type" = some (JVal.str "message") ∨
       Record.get rec "type" = some (JVal.str "service")) ∧
      ∃ v t, Record.get rec "text" = some v ∧ Text.ofRaw v = some t) :
    ∃ ce, ChatExport.load doc = .ok ce ∧
      ce.messages.length = doc.messages.length ∧
      ∀ i (h1 : i < doc.messages.length) (h2 : i < ce.messages.length),
        MsgFactory.get_message (doc.messages.get ⟨i, h1⟩) = .ok (ce.messages.get ⟨i, h2⟩) := by
  have htot : ∀ r ∈ doc.messages, ∃ m, MsgFactory.get_message r = .ok m := by
    intro r hr
    obtain ⟨hty, v, t, htext, ht⟩ := h r hr
    have hpost := postInit_ok htext ht
    rcases hty with hty | hty
    · exact ⟨⟨.regular, Record.set r "text" (JVal.content t)⟩,
        by simp [MsgFactory.get_message, hty, hpost, Except.map]⟩
    · exact ⟨⟨.service, Record.set r "text" (JVal.content t)⟩,
        by simp [MsgFactory.get_message, hty, hpost, Except.map]⟩
  obtain ⟨ms, hms⟩ := loadMessages_total htot
  refine ⟨⟨doc.name, doc.id, ms⟩, by simp [ChatExport.load, hms, Except.map],
    loadMessages_ok_length hms, ?_⟩
  intro i h1 h2
  exact loadMessages_ok_get hms i h1 h2

theorem load_preserves_order_witness :
    ∃ ce, ChatExport.load ⟨"c", 1,
        [[("type", JVal.str "message"), ("text", JVal.str "a"), ("from", JVal.str "A")],
         [("type", JVal.str "service"), ("text", JVal.list []), ("action", JVal.str "join")]]⟩ =
      .ok ce ∧
      ce.messages.length =
        (⟨"c", 1,
          [[("type", JVal.str "message"), ("text", JVal.str "a"), ("from", JVal.str "A")],
           [("type", JVal.str "service"), ("text", JVal.list []),
            ("action", JVal.str "join")]]⟩ : RawDoc).messages.length ∧
      ∀ i (h1 : i < (⟨"c", 1,
          [[("type", JVal.str "message"), ("text", JVal.str "a"), ("from", JVal.str "A")],
           [("type", JVal.str "service"), ("text", JVal.list []),
            ("action", JVal.str "join")]]⟩ : RawDoc).messages.length)
          (h2 : i < ce.messages.length),
        MsgFactory.get_message
            ((⟨"c", 1,
              [[("type", JVal.str "message"), ("text", JVal.str "a"), ("from", JVal.str "A")],
               [("type", JVal.str "service"), ("text", JVal.list []),
                ("action", JVal.str "join")]]⟩ : RawDoc).messages.get ⟨i, h1⟩) =
          .ok (ce.messages.get ⟨i, h2⟩) := by
  apply load_preserves_order
  intro rec hr
  simp only [List.mem_cons, List.not_mem_nil, or_false] at hr
  rcases hr with rfl | rfl
  · exact ⟨Or.inl (by decide), JVal.str "a", ⟨[Segment.str "a"]⟩, by decide, rfl⟩
  · exact ⟨Or.inr (by decide), JVal.list [], ⟨[]⟩, by decide, rfl⟩

/-- C8: message construction replaces exactly the record's `text` field
with the constructed TextContent and leaves every other field of the
record unchanged. -/
theorem postInit_frame (rec : Record) (v : JVal) (t : Text)
    (htext : Record.get rec "text" = some v) (ht : Text.ofRaw v = some t) :
    ∃ rec2, Message.postInit rec = .ok rec2 ∧
      Record.get rec2 "text" = some (JVal.content t) ∧
      ∀ key, key ≠ "text" → Record.get rec2 key = Record.get rec key := by
  refine ⟨Record.set rec "text" (JVal.content t), postInit_ok htext ht,
    Record.get_set_self rec "text" _, ?_⟩
  intro key hk
  exact Record.get_set_ne rec "text" key _ hk

theorem postInit_frame_witness :
    ∃ rec2, Message.postInit [("id", JVal.num 7), ("text", JVal.str "x")] = .ok rec2 ∧
      Record.get rec2 "text" = some (JVal.content ⟨[Segment.str "x"]⟩) ∧
      ∀ key, key ≠ "text" → Record.get rec2 key =
        Record.get [("id", JVal.num 7), ("text", JVal.str "x")] key :=
  postInit_frame _ (JVal.str "x") ⟨[Segment.str "x"]⟩ (by decide) rfl

/-- C9: accessing the accessor of the wrong variant fails loudly:
`from_usr` on a Service message and `action` on a Regular message both
return the attribute error instead of a default value. -/
theorem wrong_variant_access (m : Message) :
    (m.variant = .service →
      Message.from_usr m = .error (.attributeError "from_usr")) ∧
    (m.variant = .regular →
      Message.action m = .error (.attributeError "action")) := by
  constructor
  · intro h
    simp [Message.from_usr, h]
  · intro h
    simp [Message.action, h]

theorem wrong_variant_access_witness :
    Message.from_usr ⟨.service, []⟩ = .error (.attributeError "from_usr") ∧
    Message.action ⟨.regular, []⟩ = .error (.attributeError "action") :=
  ⟨(wrong_variant_access ⟨.service, []⟩).1 rfl,
   (wrong_variant_access ⟨.regular, []⟩).2 rfl⟩

/-- C10: counting the empty word is accepted and returns the sum, over
plain-string segments and entity segments carrying inline text, of the
segment text length plus one, with textless entities contributing zero;
the result is at least one as soon as one contributing segment exists. -/
theorem count_empty_word (t : Text) (cs : Bool) :
    Text.count t "" cs = (t.contents.map emptyWordContrib).sum ∧
    ((∃ seg ∈ t.contents, emptyWordContrib seg ≠ 0) → 1 ≤ Text.count t "" cs) := by
  have heq : Text.count t "" cs = (t.contents.map emptyWordContrib).sum := by
    show (countAux cs t.contents "").sum = _
    rw [countAux_sum, List.map_congr_left fun seg _ => specSegCount_empty_word cs seg]
  refine ⟨heq, ?_⟩
  rintro ⟨seg, hmem, hne⟩
  rw [heq]
  have hin : emptyWordContrib seg ∈ t.contents.map emptyWordContrib :=
    List.mem_map_of_mem _ hmem
  have hle := List.single_le_sum (fun x _ => Nat.zero_le x) _ hin
  omega

theorem count_empty_word_witness :
    Text.count ⟨[Segment.str "abc", Segment.entity "mention" none]⟩ "" false =
      ([Segment.str "abc", Segment.entity "mention" none].map emptyWordContrib).sum ∧
    1 ≤ Text.count ⟨[Segment.str "abc", Segment.entity "mention" none]⟩ "" false :=
  ⟨(count_empty_word ⟨[Segment.str "abc", Segment.entity "mention" none]⟩ false).1,
   (count_empty_word ⟨[Segment.str "abc", Segment.entity "mention" none]⟩ false).2
     ⟨Segment.str "abc", by simp, by decide⟩⟩

end TgAnalyzer
